import Mathlib

/-!
Verification of the browser-agent task-execution engine.

This file gives a shallow embedding, in Lean 4, of the core of the
`browser-agent` Go repository and proves properties of it:

* the streaming response assembler of
  `internal/infrastructure/llm/openrouter/adapter.go` (`ChatStream`),
* the task-execution loop of `internal/usecase/executor/usecase.go`,
* the map-backed tool registry (`ToolRegistryImpl`),
* the evaluator of `internal/usecase/evaluator/evaluator.go`,
* the evaluator-driven retry loop of the extraction/form sub-agents and the
  iteration handling of the navigation sub-agent
  (`internal/usecase/agents/...`).

Conventions of the embedding:

* Go strings are Lean `String`s; Go `len`/slicing count bytes while Lean
  counts characters — the two agree on the ASCII data handled here, and no
  proved statement depends on the difference.
* Go `map[K]V` values are modelled as association lists with unique keys;
  Go map iteration order is unspecified, and every modelled consumer either
  sorts the keys before use or is insensitive to the order.
* Fallible Go calls (`(T, error)`) are modelled as `Except String T`, with
  the error strings taken verbatim from the source.
* A Go runtime panic (nil dereference, slice out of range) is modelled as
  `none` in an outer `Option`.
* External collaborators (the LLM transport, JSON decoding, tool backends)
  are parameters of the embedded functions, exactly as they are ports in
  the source.
-/

namespace BrowserAgent

/-! ## Data model (`internal/domain/entity/message.go`) -/

/-- entity.ToolCall: identifier, tool name, serialized argument payload. -/
structure ToolCall where
  id : String
  name : String
  arguments : String
deriving DecidableEq, Repr

/-- entity.MessageRole. -/
inductive MessageRole where
  | system
  | user
  | assistant
  | tool
deriving DecidableEq, Repr

/-- entity.ContentBlock: a tagged variant over text, thinking and tool-use
(the Go struct carries a `Type` tag plus one populated field). -/
inductive ContentBlock where
  | text (t : String)
  | thinking (t : String)
  | toolUse (tc : ToolCall)
deriving DecidableEq, Repr

/-- Opaque stand-in for the Go `map[string]interface{}` parameter schema of a
tool definition; the core never interprets it, so any type with decidable
equality is adequate. -/
abbrev SchemaObject := List (String × String)

/-- entity.ToolDefinition. -/
structure ToolDefinition where
  name : String
  description : String
  parameters : SchemaObject
deriving DecidableEq, Repr

/-- entity.Message. -/
structure Message where
  role : MessageRole
  content : String := ""
  contentBlocks : List ContentBlock := []
  toolCalls : List ToolCall := []
  toolCallID : String := ""
  name : String := ""
deriving DecidableEq, Repr

/-! ## Association lists with Go-map update semantics

`toolCallsMap` in `ChatStream` and `tools` in `ToolRegistryImpl` are Go maps.
We model them as association lists: `alistLookup` is map read,
`alistUpdate` overwrites the value stored at an existing key. -/

/-- Read a key from an association list (Go `m[k]` with the `ok` flag). -/
def alistLookup {κ α : Type} [DecidableEq κ] (m : List (κ × α)) (k : κ) : Option α :=
  match m with
  | [] => none
  | (k', v) :: rest => if k' = k then some v else alistLookup rest k

/-- Overwrite the value stored at key `k` (no-op when the key is absent). -/
def alistUpdate {κ α : Type} [DecidableEq κ] (m : List (κ × α)) (k : κ) (v : α) :
    List (κ × α) :=
  match m with
  | [] => []
  | (k', w) :: rest =>
    if k' = k then (k', v) :: rest else (k', w) :: alistUpdate rest k v

/-! ## Response assembler
(`OpenRouterAdapter.ChatStream`, `internal/infrastructure/llm/openrouter/adapter.go`)

A streamed chunk's delta carries an optional reasoning fragment, an optional
text fragment, and zero or more partial tool-call fragments tagged with a
stream index (`*int` in Go, hence `Option Int` here).  Chunks with an empty
`Choices` array are skipped by the source, so a `Delta` below corresponds to
one chunk that does carry a choice.  The `onChunk` callback and the debug
logging are observationally irrelevant to the assembled message and are not
modelled. -/

/-- One tool-call fragment of a streamed delta (`openai.ToolCall` with its
`Index *int` and the id/name/argument substrings that happen to be present). -/
structure ToolCallFragment where
  index : Option Int
  id : String := ""
  name : String := ""
  arguments : String := ""
deriving DecidableEq, Repr

/-- One streamed delta (`chunk.Choices[0].Delta`). -/
structure Delta where
  reasoningContent : String := ""
  content : String := ""
  toolCalls : List ToolCallFragment := []
deriving DecidableEq, Repr

/-- The index-keyed accumulator map of `ChatStream` (`map[int]*entity.ToolCall`). -/
abbrev ToolCallsMap := List (Int × ToolCall)

/-- The merge applied to an accumulator that already exists at the fragment's
index: append the argument substring, and overwrite id/name only when the
fragment supplies a non-empty value. -/
def updateExisting (existing : ToolCall) (tc : ToolCallFragment) : ToolCall :=
  { existing with
    arguments := existing.arguments ++ tc.arguments
    name := if tc.name ≠ "" then tc.name else existing.name
    id := if tc.id ≠ "" then tc.id else existing.id }

/-- Accumulation of one tool-call fragment
(the `for _, tc := range delta.ToolCalls` body of `ChatStream`):
a fragment with an absent index is skipped (`if tc.Index == nil { continue }`);
otherwise the accumulator at the index is updated, or freshly created seeded
with whatever id/name/argument data the fragment carries. -/
def mergeToolCallFragment (m : ToolCallsMap) (tc : ToolCallFragment) : ToolCallsMap :=
  match tc.index with
  | none => m
  | some idx =>
    match alistLookup m idx with
    | some existing => alistUpdate m idx (updateExisting existing tc)
    | none => m ++ [(idx, ⟨tc.id, tc.name, tc.arguments⟩)]

/-- The mutable stream-consumption state of `ChatStream`. -/
structure AssemblerState where
  thinking : String
  text : String
  toolCallsMap : ToolCallsMap
deriving DecidableEq, Repr

def emptyAssembler : AssemblerState := ⟨"", "", []⟩

/-- Consumption of one delta: reasoning and text fragments extend their
running buffers, tool-call fragments are merged into the index map. -/
def processDelta (s : AssemblerState) (d : Delta) : AssemblerState :=
  { thinking := if d.reasoningContent ≠ "" then s.thinking ++ d.reasoningContent else s.thinking
    text := if d.content ≠ "" then s.text ++ d.content else s.text
    toolCallsMap := d.toolCalls.foldl mergeToolCallFragment s.toolCallsMap }

/-- The key list of the accumulator map sorted ascending (`sort.Ints(indices)`).
Go map iteration enumerates the keys in an unspecified order; since the keys
are pairwise distinct, sorting yields the same list for every enumeration
order, so sorting the association-list order is a faithful model. -/
def sortedIndices (m : ToolCallsMap) : List Int :=
  List.insertionSort (· ≤ ·) (m.map Prod.fst)

/-- Emission on stream end: thinking block if the accumulated reasoning is
non-empty, then text block if the accumulated text is non-empty (which also
sets the flat `Content` field), then one tool-use block per map index in
ascending index order. -/
def assembleFinal (s : AssemblerState) : Message :=
  let calls := (sortedIndices s.toolCallsMap).filterMap (alistLookup s.toolCallsMap)
  { role := .assistant
    content := if s.text ≠ "" then s.text else ""
    contentBlocks :=
      (if s.thinking ≠ "" then [ContentBlock.thinking s.thinking] else [])
        ++ (if s.text ≠ "" then [ContentBlock.text s.text] else [])
        ++ calls.map ContentBlock.toolUse
    toolCalls := calls }

/-- The message `ChatStream` returns for a given sequence of streamed deltas
(arrival order = list order). -/
def chatStreamAssemble (ds : List Delta) : Message :=
  assembleFinal (ds.foldl processDelta emptyAssembler)

/-- Final accumulator map after consuming a delta stream. -/
def finalToolMap (ds : List Delta) : ToolCallsMap :=
  (ds.foldl processDelta emptyAssembler).toolCallsMap

/-- Final accumulated reasoning buffer. -/
def streamThinking (ds : List Delta) : String :=
  (ds.foldl processDelta emptyAssembler).thinking

/-- Final accumulated text buffer. -/
def streamText (ds : List Delta) : String :=
  (ds.foldl processDelta emptyAssembler).text

/-- The accumulated tool call at a given stream index. -/
def callAt (ds : List Delta) (idx : Int) : Option ToolCall :=
  alistLookup (finalToolMap ds) idx

/-- All stream indices carried by tool-call fragments of a delta stream
(fragments with an absent index contribute nothing). -/
def collectIndices (ds : List Delta) : List Int :=
  (ds.map Delta.toolCalls).flatten.filterMap ToolCallFragment.index

/-- All tool-call fragments tagged with a given stream index, in arrival
order. -/
def fragmentsAt (ds : List Delta) (idx : Int) : List ToolCallFragment :=
  (ds.map Delta.toolCalls).flatten.filter (fun f => f.index = some idx)

/-- The strictly ascending integer list `[0, 1, ..., N-1]`. -/
def intRange (N : ℕ) : List Int :=
  List.map (fun k : ℕ => (k : Int)) (List.range N)

/-! ### Per-index accumulation (claim C9) -/

/-- One accumulation step restricted to a single index: the first fragment
seeds the accumulator, later fragments are merged by `updateExisting`. -/
def accumFragment (o : Option ToolCall) (f : ToolCallFragment) : Option ToolCall :=
  match o with
  | none => some ⟨f.id, f.name, f.arguments⟩
  | some e => some (updateExisting e f)

/-- The last non-empty string of a list (or `""` when every entry is empty):
how `ChatStream` settles the id/name of a tool call from its fragments. -/
def lastNonEmpty (l : List String) : String :=
  l.foldl (fun acc s => if s ≠ "" then s else acc) ""

/-- Concatenation of a list of strings in list order: how `ChatStream`
assembles the argument payload of a tool call from its fragments. -/
def concatAll (l : List String) : String :=
  l.foldl (fun a s => a ++ s) ""

/-! ## Tool abstraction and registry
(`internal/application/port/output/tool.go` and the map-backed
`ToolRegistryImpl` of the service layer)

A `ToolPort` bundles the tool contract: name, description, parameter schema
and the `Execute(ctx, arguments)` call, the latter modelled as a function
from the argument payload to a fallible result (the context only carries
cancellation, which is an external concern of the backend). -/

structure ToolPort where
  name : String
  description : String
  parameters : SchemaObject
  exec : String → Except String String

/-- The backing store of `ToolRegistryImpl` (`tools map[string]output.ToolPort`). -/
abbrev Registry := List (String × ToolPort)

/-- `Register`: `r.tools[tool.Name()] = tool` — Go map assignment, i.e.
overwrite when the key exists, insert otherwise (last write wins). -/
def registryRegister (r : Registry) (t : ToolPort) : Registry :=
  if (alistLookup r t.name).isSome then alistUpdate r t.name t else r ++ [(t.name, t)]

/-- `Get`: map read with presence flag. -/
def registryGet (r : Registry) (name : String) : Option ToolPort :=
  alistLookup r name

/-- `All`: every registered tool. -/
def registryAll (r : Registry) : List ToolPort :=
  r.map Prod.snd

/-- `Definitions`: one `ToolDefinition` per registered tool, built from the
tool's own name/description/parameters. -/
def registryDefinitions (r : Registry) : List ToolDefinition :=
  r.map (fun p => ⟨p.2.name, p.2.description, p.2.parameters⟩)

/-! ## Task-execution loop (`internal/usecase/executor/usecase.go`)

The LLM port's blocking `Chat` is a parameter: a function from the
transcript and the advertised tool definitions to a fallible assistant
message (`ChatResponse.Message`).  The `for iteration := 1; iteration <=
maxIterations; iteration++` loop is translated to structural recursion on
the remaining iteration budget, with the 1-based iteration counter carried
along; the second component of the result instruments the embedding with
the exact number of `Chat` calls performed (the Go code performs one call
per loop entry, which is what the counter counts). -/

def Executor.maxIterations : Nat := 50

def Executor.maxObservationLen : Nat := 20000

abbrev ChatFun := List Message → List ToolDefinition → Except String Message

/-- The tool-role message appended for one observation: it carries the
original call's id and name. -/
def toolResultMessage (tc : ToolCall) (obs : String) : Message :=
  { role := .tool, content := obs, toolCallID := tc.id, name := tc.name }

/-- `UseCase.executeTool`: unknown names and failing executions become
`Error: ...` observation strings; successful results longer than
`maxObservationLen` are truncated and marked.  (The same function body
appears in the extraction/form/navigation sub-agents.) -/
def executeTool (reg : Registry) (tc : ToolCall) : String :=
  match registryGet reg tc.name with
  | none => "Error: unknown tool \x27" ++ tc.name ++ "\x27"
  | some tool =>
    match tool.exec tc.arguments with
    | .error e => "Error: " ++ e
    | .ok result =>
      if Executor.maxObservationLen < result.length then
        result.take Executor.maxObservationLen ++ "\n... (truncated)"
      else result

/-- `input.ExecuteResult`. -/
structure ExecuteResult where
  finalAnswer : String
  iterations : Nat
deriving DecidableEq, Repr

/-- The iteration loop of `UseCase.Execute`, by recursion on the remaining
iteration budget (`remaining = maxIterations + 1 - iteration`). -/
def executeFrom (chat : ChatFun) (reg : Registry) :
    Nat → Nat → List Message → Except String ExecuteResult × Nat
  | 0, _, _ => (.error "max iterations (50) exceeded", 0)
  | remaining + 1, iteration, messages =>
    match chat messages (registryDefinitions reg) with
    | .error e => (.error ("llm request failed: " ++ e), 1)
    | .ok m =>
      let messages := messages ++ [m]
      if m.toolCalls.isEmpty then
        (.ok ⟨m.content, iteration⟩, 1)
      else
        let messages := messages ++
          m.toolCalls.map (fun tc => toolResultMessage tc (executeTool reg tc))
        let p := executeFrom chat reg remaining (iteration + 1) messages
        (p.1, p.2 + 1)

/-- `UseCase.Execute`: seed the transcript with the system prompt and the
user task, then run up to 50 iterations starting at iteration 1. -/
def executorExecute (chat : ChatFun) (reg : Registry) (systemPrompt task : String) :
    Except String ExecuteResult × Nat :=
  executeFrom chat reg Executor.maxIterations 1
    [{ role := .system, content := systemPrompt }, { role := .user, content := task }]

/-! ## Evaluator (`internal/usecase/evaluator/evaluator.go`)

`entity.AgentType` is a string type with named constants.  JSON decoding
(`json.Unmarshal`) is an external library call and is a parameter `decode`
of the embedding; `decode s = none` models a decode error.  Go `float64` is
modelled as `ℚ` (every value the evaluator handles, such as `0.5`, is
exactly representable).  The outer `Option` of `parseEvaluationResponse`
and `evaluate` models a Go runtime panic: `none` means the function does
not return but panics. -/

abbrev AgentType := String

def agentTypeNavigation : AgentType := "navigation"

def agentTypeExtraction : AgentType := "extraction"

def agentTypeForm : AgentType := "form"

/-- entity.EvaluationResult. -/
structure EvaluationResult where
  success : Bool
  confidence : ℚ
  issues : List String
  feedback : String
  shouldRetry : Bool
deriving DecidableEq, Repr

/-- entity.EvaluationCriteria. -/
structure EvaluationCriteria where
  taskDescription : String
  actualResult : String
  agentType : AgentType
deriving DecidableEq, Repr

def evaluatorBasePrompt : String :=
  "You are an Evaluator Agent. Your job is to assess if an agent successfully completed its task.\n\nAnalyze the task description and the actual result, then provide evaluation in JSON format.\n\nResponse format (MUST be valid JSON):\n\x7b\n  \"success\": true/false,\n  \"confidence\": 0.0-1.0,\n  \"issues\": [\"issue1\", \"issue2\"],\n  \"feedback\": \"specific feedback for improvement\",\n  \"should_retry\": true/false\n\x7d\n\nEvaluation criteria:"

def evaluatorNavigationCriteria : String :=
  "\n- Did the agent navigate to the requested URL?\n- Are the required elements found and their selectors provided?\n- Is the page structure information clear and actionable?\n- If asked to find elements, are BOTH parent and child selectors provided?\n\nSUCCESS if:\n✓ Navigation completed or elements found\n✓ Selectors are specific (e.g., \".class-name\", not \"button\")\n✓ Information is actionable for next agent\n\nSHOULD_RETRY if:\n✗ Selectors are too generic or missing\n✗ No elements found when they should exist\n✗ Page didn\x27t load properly"

def evaluatorExtractionCriteria : String :=
  "\n- Was data actually extracted (not just \"found\" or \"identified\")?\n- Are all requested fields present in the result?\n- Is data structured and parseable?\n- Are selectors included for interactive elements (checkboxes, buttons)?\n\nSUCCESS if:\n✓ Data is extracted with actual values\n✓ All requested fields are present\n✓ Format is structured (numbered list, table)\n✓ Selectors provided for follow-up actions\n\nSHOULD_RETRY if:\n✗ No data extracted, only descriptions\n✗ Missing requested fields\n✗ Result says \"couldn\x27t find\" or similar\n✗ Used all 5 iterations without success"

def evaluatorFormCriteria : String :=
  "\n- Were the requested form fields filled?\n- Were buttons clicked as requested?\n- Is there confirmation of success (page redirect, success message)?\n- Are specific errors reported if something failed?\n\nSUCCESS if:\n✓ Form filled with provided data\n✓ Actions completed (click, submit)\n✓ Confirmation of result (redirect, message)\n\nSHOULD_RETRY if:\n✗ Form fields not found\n✗ Click failed\n✗ No confirmation of action"

def evaluatorDefaultCriteria : String :=
  "\n- Was the requested task completed?\n- Is the result clear and actionable?\n- Are there any obvious errors or failures?"

def evaluatorPromptTail : String :=
  "\n\nIMPORTANT:\n- Be strict but fair\n- Confidence should reflect certainty (1.0 = definitely successful, 0.0 = definitely failed)\n- Only suggest retry if improvement is likely with feedback\n- Provide specific, actionable feedback"

/-- `Evaluator.buildEvaluationPrompt`: the per-category judge prompt. -/
def buildEvaluationPrompt (criteria : EvaluationCriteria) : String :=
  evaluatorBasePrompt ++
    (if criteria.agentType = agentTypeNavigation then evaluatorNavigationCriteria
     else if criteria.agentType = agentTypeExtraction then evaluatorExtractionCriteria
     else if criteria.agentType = agentTypeForm then evaluatorFormCriteria
     else evaluatorDefaultCriteria) ++
    evaluatorPromptTail

/-- `strings.TrimSpace`: drop leading and trailing whitespace. -/
def trimChars (l : List Char) : List Char :=
  ((l.dropWhile Char.isWhitespace).reverse.dropWhile Char.isWhitespace).reverse

/-- `strings.Index` restricted to a single character (the source searches for
the one-byte strings `{` and `}`), as a `none`/`some` position instead of
Go's `-1` sentinel. -/
def firstIndex : List Char → Char → Option Nat
  | [], _ => none
  | c :: rest, target =>
    if c = target then some 0 else (firstIndex rest target).map (· + 1)

/-- `strings.LastIndex` for a single character. -/
def lastIndex (l : List Char) (target : Char) : Option Nat :=
  (firstIndex l.reverse target).map (fun j => l.length - 1 - j)

/-- `Evaluator.parseEvaluationResponse`: trim the reply, locate the first
`{` and the last `}`, fail with an error when either is missing, otherwise
decode the slice `response[start : end+1]`.  The Go slice expression panics
(slice bounds out of range) when `start > end+1`, i.e. when the last `}`
sits more than one position before the first `{`; the embedding returns
`none` for that panic.  (Byte positions and character positions order the
two ASCII braces identically, so the panic condition agrees with Go's.) -/
def parseEvaluationResponse (decode : String → Option EvaluationResult)
    (response : String) : Option (Except String EvaluationResult) :=
  let l := trimChars response.data
  match firstIndex l '\x7b', lastIndex l '\x7d' with
  | some start, some stop =>
    if stop + 1 < start then none
    else
      let jsonStr := String.mk ((l.drop start).take (stop + 1 - start))
      match decode jsonStr with
      | none => some (.error "failed to parse JSON")
      | some result => some (.ok result)
  | _, _ => some (.error "no JSON found in response")

/-- `Evaluator.Evaluate`: one blocking chat call with the judge prompt, then
parse; a parse error is recovered by the fail-open default verdict
(success, confidence 0.5, no issues, no feedback, no retry); a parse panic
propagates (`none`). -/
def evaluate (decode : String → Option EvaluationResult) (chat : ChatFun)
    (criteria : EvaluationCriteria) : Option (Except String EvaluationResult) :=
  let prompt := buildEvaluationPrompt criteria
  let messages : List Message :=
    [{ role := .system, content := prompt },
     { role := .user,
       content := "Task: " ++ criteria.taskDescription ++ "\n\nActual Result:\n"
         ++ criteria.actualResult }]
  match chat messages [] with
  | .error e => some (.error ("evaluation llm request failed: " ++ e))
  | .ok m =>
    match parseEvaluationResponse decode m.content with
    | none => none
    | some (.error _) =>
      some (.ok { success := true, confidence := 0.5, issues := [], feedback := "",
                  shouldRetry := false })
    | some (.ok result) => some (.ok result)

/-! ## Evaluator-driven retry loop
(`Agent.Execute` of `internal/usecase/agents/extraction/agent.go` and
`internal/usecase/agents/form/agent.go` — the two files carry the identical
retry loop; the form agent additionally issues user-interaction display
calls, which are observationally irrelevant here)

The inner iteration loop (`runInner`) and the evaluator port (`evalF`, whose
concrete implementation is `evaluate` above applied to the sub-agent's
category) are parameters.  The `for retry := 0; retry <= maxRetries;
retry++` loop is translated to structural recursion on the remaining retry
budget (`left = maxRetries - retry`); the second component of the result
instruments the embedding with the list of task texts handed to the inner
loop, in attempt order. -/

def Retry.maxRetries : Nat := 2

/-- The numbered issue list appended to a retry task
(`fmt.Sprintf("%d. %s\n", i+1, issue)` accumulated over the issues). -/
def numberedIssues (issues : List String) : String :=
  issues.enum.foldl (fun acc p => acc ++ toString (p.1 + 1) ++ ". " ++ p.2 ++ "\n") ""

/-- The next attempt's task text: the original task description, the latest
verdict's feedback, and the numbered list of the latest verdict's issues. -/
def buildRetryTask (originalTask feedback : String) (issues : List String) : String :=
  (originalTask ++ "\n\nPREVIOUS ATTEMPT FEEDBACK:\n" ++ feedback
    ++ "\n\nIssues to fix:\n") ++ numberedIssues issues

/-- The retry state machine of `Agent.Execute`: run the inner loop, propagate
its hard errors, evaluate the result; return the result on success, on an
evaluation error, on a no-retry verdict, or when the retry budget is
exhausted; otherwise rebuild the task from the original description plus the
fresh verdict and try again. -/
def agentRetryLoop (runInner : String → Except String String)
    (evalF : String → Except String EvaluationResult) (originalTask : String) :
    Nat → String → Except String String × List String
  | 0, task =>
    match runInner task with
    | .error e => (.error e, [task])
    | .ok result =>
      match evalF result with
      | .error _ => (.ok result, [task])
      | .ok ev =>
        if ev.success then (.ok result, [task])
        else (.ok result, [task])
  | left + 1, task =>
    match runInner task with
    | .error e => (.error e, [task])
    | .ok result =>
      match evalF result with
      | .error _ => (.ok result, [task])
      | .ok ev =>
        if ev.success then (.ok result, [task])
        else if ev.shouldRetry then
          let p := agentRetryLoop runInner evalF originalTask left
            (buildRetryTask originalTask ev.feedback ev.issues)
          (p.1, task :: p.2)
        else (.ok result, [task])

/-- `Agent.Execute` entry: the first attempt's task is the original task and
the full retry budget is available. -/
def agentExecuteEval (runInner : String → Except String String)
    (evalF : String → Except String EvaluationResult) (task : String) :
    Except String String × List String :=
  agentRetryLoop runInner evalF task Retry.maxRetries task

/-! ## Sub-agent iteration loops
(`internal/usecase/agents/extraction/agent.go` `executeWithIterations` and
`internal/usecase/agents/navigation/agent.go` `executeWithIterations`)

Both run the same chat/dispatch iteration as the executor, with smaller
ceilings and a filtered tool list.  On exhausting its ceiling the extraction
(and form) loop returns the hard error `max iterations (5) exceeded`, while
the navigation loop instead appends a forced final-report user message and
makes one more chat call with no tools, returning that call's text.  The
user-interaction display calls of the navigation/form agents are
observationally irrelevant and not modelled. -/

def Extraction.maxIterations : Nat := 5

def Navigation.maxIterations : Nat := 10

/-- The allow-list filter of a sub-agent's `filterTools`: keep, in registry
order, the definitions whose name is in the allow-list. -/
def filterToolDefs (allowed : List String) (reg : Registry) : List ToolDefinition :=
  (registryDefinitions reg).filter (fun d => allowed.contains d.name)

def Extraction.allowedTools : List String :=
  ["browser_query_elements", "browser_search", "browser_observe", "browser_scroll"]

def Navigation.allowedTools : List String :=
  ["browser_navigate", "browser_observe", "browser_scroll", "browser_search"]

/-- The extraction agent's inner loop, by recursion on the remaining
iteration budget; exhaustion is the hard error `max iterations (5)
exceeded`. -/
def extractionLoop (chat : ChatFun) (reg : Registry) (toolDefs : List ToolDefinition) :
    Nat → List Message → Except String String
  | 0, _ => .error "max iterations (5) exceeded"
  | remaining + 1, messages =>
    match chat messages toolDefs with
    | .error e => .error ("llm request failed: " ++ e)
    | .ok m =>
      let messages := messages ++ [m]
      if m.toolCalls.isEmpty then .ok m.content
      else
        extractionLoop chat reg toolDefs remaining
          (messages ++ m.toolCalls.map (fun tc => toolResultMessage tc (executeTool reg tc)))

def extractionExecuteWithIterations (chat : ChatFun) (reg : Registry)
    (systemPrompt task : String) : Except String String :=
  extractionLoop chat reg (filterToolDefs Extraction.allowedTools reg)
    Extraction.maxIterations
    [{ role := .system, content := systemPrompt }, { role := .user, content := task }]

/-- The extraction agent's `Execute`: the evaluator-driven retry loop over
the inner iteration loop (the form agent is identical up to its allow-list
and display calls). -/
def extractionExecute (chat : ChatFun) (reg : Registry)
    (evalF : String → Except String EvaluationResult) (systemPrompt task : String) :
    Except String String × List String :=
  agentExecuteEval (fun t => extractionExecuteWithIterations chat reg systemPrompt t)
    evalF task

/-- The forced final-report instruction the navigation agent appends when its
iteration ceiling is reached. -/
def navigationSummaryPrompt : String :=
  "CRITICAL: Maximum iterations reached. You MUST provide your FINAL REPORT now.\n\nFormat your response as:\n- If task completed successfully: Provide your success report as instructed\n- If task failed: Start with \"FAILED:\" and provide detailed failure report as instructed in your prompt\n- If task partially completed: Start with \"PARTIAL SUCCESS:\" and explain what was done\n\nThis is your LAST response. Do NOT call any tools. Provide text response ONLY."

/-- The navigation agent's inner loop: same iteration body, but on
exhaustion it appends the final-report instruction and makes one more chat
call with `Tools: nil`, returning that call's text. -/
def navigationLoop (chat : ChatFun) (reg : Registry) (toolDefs : List ToolDefinition) :
    Nat → List Message → Except String String
  | 0, messages =>
    let messages := messages ++ [{ role := .user, content := navigationSummaryPrompt }]
    match chat messages [] with
    | .error e => .error ("summary iteration failed: " ++ e)
    | .ok m => .ok m.content
  | remaining + 1, messages =>
    match chat messages toolDefs with
    | .error e => .error ("llm request failed: " ++ e)
    | .ok m =>
      let messages := messages ++ [m]
      if m.toolCalls.isEmpty then .ok m.content
      else
        navigationLoop chat reg toolDefs remaining
          (messages ++ m.toolCalls.map (fun tc => toolResultMessage tc (executeTool reg tc)))

/-- The navigation agent's `Execute`. -/
def navigationExecute (chat : ChatFun) (reg : Registry)
    (systemPrompt task : String) : Except String String :=
  navigationLoop chat reg (filterToolDefs Navigation.allowedTools reg)
    Navigation.maxIterations
    [{ role := .system, content := systemPrompt }, { role := .user, content := task }]

/-- A tool whose execution always fails with a 30000-character message. -/
def longErrMsg : String := String.mk (List.replicate 30000 'a')

def failingTool : ToolPort :=
  { name := "bad_tool", description := "always fails", parameters := [],
    exec := fun _ => .error longErrMsg }

/-! ### Concrete instances used by witnesses and counterexamples -/

/-- A model reply that always requests one tool call. -/
def alwaysToolChat : ChatFun := fun _ _ =>
  .ok { role := .assistant, content := "working",
        toolCalls := [⟨"call_1", "tool_x", ""⟩] }

/-- An evaluator verdict that always accepts (never reached in the
exhaustion scenarios). -/
def trivialVerdictEval : String → Except String EvaluationResult := fun _ =>
  .ok { success := true, confidence := 0.5, issues := [], feedback := "",
        shouldRetry := false }

/-- A two-delta stream whose tool-call fragments arrive in descending index
order, with a reasoning fragment before the text fragment. -/
def dsW : List Delta :=
  [⟨"think", "", [⟨some 1, "b", "t1", "y"⟩]⟩,
   ⟨"", "hello", [⟨some 0, "a", "t0", "x"⟩]⟩]

/-- A stream whose index-2 tool call arrives in two argument pieces,
interleaved with an index-0 fragment. -/
def dsW9 : List Delta :=
  [⟨"", "", [⟨some 2, "c2", "t2", "ab"⟩, ⟨some 0, "c0", "t0", "zz"⟩]⟩,
   ⟨"", "", [⟨some 2, "", "", "cd"⟩]⟩]

/-- A model that always requests one tool call (used for the ceiling part
of the C2 witness). -/
def chatLoopW : ChatFun := fun _ _ =>
  .ok { role := .assistant, content := "", toolCalls := [⟨"c", "t", ""⟩] }

/-- A model that immediately answers with no tool calls. -/
def chatDoneW : ChatFun := fun _ _ =>
  .ok { role := .assistant, content := "hi" }

/-- C2 witness: with an always-tool-calling model the executor stops with
the ceiling error after exactly 50 model calls; with an immediately-done
model the reported iteration count equals the single model call made. -/
def mW4 : Message :=
  { role := .assistant, content := "", toolCalls := [⟨"c1", "ghost_tool", "a"⟩] }

def chatW4 : ChatFun := fun _ _ => .ok mW4

/-- Inner loop that echoes the task back as its result. -/
def runInnerW : String → Except String String := fun t => .ok t

/-- A judge that demands one retry on the original task and accepts
anything else. -/
def evalFW : String → Except String EvaluationResult := fun r =>
  if r = "orig" then .ok { success := false, confidence := 0.2,
                           issues := ["i1", "i2"], feedback := "fb", shouldRetry := true }
  else .ok { success := true, confidence := 0.9, issues := [], feedback := "",
             shouldRetry := false }

/-- C6 witness: one recommended retry at concrete inputs — the second
attempt's task is the original task plus the fresh feedback and the
numbered issues. -/
def okToolW : ToolPort :=
  { name := "echo_tool", description := "returns hi", parameters := [],
    exec := fun _ => .ok "hi" }

def errToolW : ToolPort :=
  { name := "boom_tool", description := "fails", parameters := [],
    exec := fun _ => .error "boom" }

/-- C8 witness: at concrete tools, a short successful result is appended
unchanged and a failing execution yields the error observation. -/
def toolA : ToolPort :=
  { name := "tool_a", description := "first", parameters := [("p", "1")],
    exec := fun _ => .ok "a" }

def toolB : ToolPort :=
  { name := "tool_b", description := "second", parameters := [],
    exec := fun _ => .ok "b" }

def toolA2 : ToolPort :=
  { name := "tool_a", description := "replacement", parameters := [("q", "2")],
    exec := fun _ => .ok "a2" }

/-! ### Association-list lemmas -/

/-! ### Accumulator-map lemmas for the assembler -/

/-! ### Registry coherence (claim C10) -/

/-! ## Theorems -/

theorem mem_keys_iff_lookup_isSome {κ α : Type} [DecidableEq κ]
    (m : List (κ × α)) (k : κ) :
    k ∈ m.map Prod.fst ↔ (alistLookup m k).isSome := by
  induction m with
  | nil => simp [alistLookup]
  | cons p rest ih =>
    obtain ⟨k', v⟩ := p
    by_cases h : k' = k
    · simp [alistLookup, h]
    · simp [alistLookup, h, ih, Ne.symm h]

theorem keys_alistUpdate {κ α : Type} [DecidableEq κ]
    (m : List (κ × α)) (k : κ) (v : α) :
    (alistUpdate m k v).map Prod.fst = m.map Prod.fst := by
  induction m with
  | nil => simp [alistUpdate]
  | cons p rest ih =>
    obtain ⟨k', w⟩ := p
    by_cases h : k' = k <;> simp [alistUpdate, h, ih]

theorem alistLookup_update_self {κ α : Type} [DecidableEq κ]
    (m : List (κ × α)) (k : κ) (v : α) (h : (alistLookup m k).isSome) :
    alistLookup (alistUpdate m k v) k = some v := by
  induction m with
  | nil => simp [alistLookup] at h
  | cons p rest ih =>
    obtain ⟨k', w⟩ := p
    by_cases hk : k' = k
    · simp [alistUpdate, alistLookup, hk]
    · simp only [alistLookup, hk, if_false] at h
      simp [alistUpdate, alistLookup, hk, ih h]

theorem alistLookup_update_ne {κ α : Type} [DecidableEq κ]
    (m : List (κ × α)) (k j : κ) (v : α) (h : k ≠ j) :
    alistLookup (alistUpdate m k v) j = alistLookup m j := by
  induction m with
  | nil => simp [alistUpdate]
  | cons p rest ih =>
    obtain ⟨k', w⟩ := p
    by_cases hk : k' = k
    · subst hk
      simp [alistUpdate, alistLookup, h]
    · by_cases hj : k' = j <;> simp [alistUpdate, alistLookup, hk, hj, ih, Ne.symm h]

theorem alistLookup_append {κ α : Type} [DecidableEq κ]
    (m₁ m₂ : List (κ × α)) (k : κ) :
    alistLookup (m₁ ++ m₂) k =
      match alistLookup m₁ k with
      | some v => some v
      | none => alistLookup m₂ k := by
  induction m₁ with
  | nil => simp [alistLookup]
  | cons p rest ih =>
    obtain ⟨k', v⟩ := p
    by_cases h : k' = k <;> simp [alistLookup, h, ih]

theorem mem_keys_merge (m : ToolCallsMap) (f : ToolCallFragment) (i : Int) :
    i ∈ (mergeToolCallFragment m f).map Prod.fst ↔
      i ∈ m.map Prod.fst ∨ f.index = some i := by
  cases hf : f.index with
  | none => simp [mergeToolCallFragment, hf]
  | some idx =>
    simp only [mergeToolCallFragment, hf]
    cases hl : alistLookup m idx with
    | some e =>
      rw [keys_alistUpdate]
      constructor
      · exact Or.inl
      · rintro (h | h)
        · exact h
        · obtain rfl : idx = i := by simpa using h
          rw [mem_keys_iff_lookup_isSome, hl]
          rfl
    | none =>
      simp only [List.map_append, List.map_cons, List.map_nil, List.mem_append,
        List.mem_cons, List.not_mem_nil, or_false, Option.some.injEq]
      constructor
      · rintro (h | h)
        · exact Or.inl h
        · exact Or.inr h.symm
      · rintro (h | h)
        · exact Or.inl h
        · exact Or.inr h.symm

theorem nodup_keys_merge (m : ToolCallsMap) (f : ToolCallFragment)
    (h : (m.map Prod.fst).Nodup) :
    ((mergeToolCallFragment m f).map Prod.fst).Nodup := by
  cases hf : f.index with
  | none => simpa [mergeToolCallFragment, hf] using h
  | some idx =>
    simp only [mergeToolCallFragment, hf]
    cases hl : alistLookup m idx with
    | some e => rw [keys_alistUpdate]; exact h
    | none =>
      rw [List.map_append]
      refine List.Nodup.append h (by simp) ?_
      intro a ha hb
      simp only [List.map_cons, List.map_nil, List.mem_cons, List.not_mem_nil,
        or_false] at hb
      subst hb
      rw [mem_keys_iff_lookup_isSome, hl] at ha
      exact absurd ha (by simp)

theorem mem_keys_foldl_merge (fs : List ToolCallFragment) (m : ToolCallsMap) (i : Int) :
    i ∈ ((fs.foldl mergeToolCallFragment m).map Prod.fst) ↔
      i ∈ m.map Prod.fst ∨ ∃ f ∈ fs, f.index = some i := by
  induction fs generalizing m with
  | nil => simp
  | cons f fs ih =>
    rw [List.foldl_cons, ih, mem_keys_merge]
    constructor
    · rintro ((h | h) | ⟨g, hg, hgi⟩)
      · exact Or.inl h
      · exact Or.inr ⟨f, by simp, h⟩
      · exact Or.inr ⟨g, by simp [hg], hgi⟩
    · rintro (h | ⟨g, hg, hgi⟩)
      · exact Or.inl (Or.inl h)
      · rcases List.mem_cons.mp hg with rfl | hg'
        · exact Or.inl (Or.inr hgi)
        · exact Or.inr ⟨g, hg', hgi⟩

theorem nodup_keys_foldl_merge (fs : List ToolCallFragment) (m : ToolCallsMap)
    (h : (m.map Prod.fst).Nodup) :
    ((fs.foldl mergeToolCallFragment m).map Prod.fst).Nodup := by
  induction fs generalizing m with
  | nil => exact h
  | cons f fs ih => exact ih _ (nodup_keys_merge _ _ h)

theorem mem_keys_finalToolMap (ds : List Delta) (i : Int) :
    i ∈ (finalToolMap ds).map Prod.fst ↔ i ∈ collectIndices ds := by
  have key : ∀ (ds : List Delta) (s : AssemblerState),
      i ∈ ((ds.foldl processDelta s).toolCallsMap.map Prod.fst) ↔
        i ∈ s.toolCallsMap.map Prod.fst ∨
          ∃ d ∈ ds, ∃ f ∈ d.toolCalls, f.index = some i := by
    intro ds
    induction ds with
    | nil => simp
    | cons d ds ih =>
      intro s
      rw [List.foldl_cons, ih]
      simp only [processDelta, mem_keys_foldl_merge]
      constructor
      · rintro ((h | ⟨f, hf, hfi⟩) | ⟨d', hd', g, hg, hgi⟩)
        · exact Or.inl h
        · exact Or.inr ⟨d, by simp, f, hf, hfi⟩
        · exact Or.inr ⟨d', by simp [hd'], g, hg, hgi⟩
      · rintro (h | ⟨d', hd', g, hg, hgi⟩)
        · exact Or.inl (Or.inl h)
        · rcases List.mem_cons.mp hd' with rfl | hd''
          · exact Or.inl (Or.inr ⟨g, hg, hgi⟩)
          · exact Or.inr ⟨d', hd'', g, hg, hgi⟩
  rw [finalToolMap, key]
  simp only [collectIndices, List.mem_filterMap, List.mem_flatten, List.mem_map,
    emptyAssembler, List.map_nil, List.not_mem_nil, false_or]
  constructor
  · rintro ⟨d, hd, f, hf, hfi⟩
    exact ⟨f, ⟨d.toolCalls, ⟨d, hd, rfl⟩, hf⟩, hfi⟩
  · rintro ⟨f, ⟨l, ⟨d, hd, rfl⟩, hf⟩, hfi⟩
    exact ⟨d, hd, f, hf, hfi⟩

theorem nodup_keys_finalToolMap (ds : List Delta) :
    ((finalToolMap ds).map Prod.fst).Nodup := by
  have key : ∀ (ds : List Delta) (s : AssemblerState),
      (s.toolCallsMap.map Prod.fst).Nodup →
        ((ds.foldl processDelta s).toolCallsMap.map Prod.fst).Nodup := by
    intro ds
    induction ds with
    | nil => exact fun s h => h
    | cons d ds ih =>
      intro s hs
      exact ih _ (nodup_keys_foldl_merge _ _ hs)
  exact key ds emptyAssembler (by simp [emptyAssembler])

theorem mem_intRange (N : ℕ) (i : Int) : i ∈ intRange N ↔ 0 ≤ i ∧ i < (N : Int) := by
  simp only [intRange, List.mem_map, List.mem_range]
  constructor
  · rintro ⟨k, hk, rfl⟩
    exact ⟨by exact_mod_cast Nat.zero_le k, by exact_mod_cast hk⟩
  · rintro ⟨h0, hN⟩
    refine ⟨i.toNat, by omega, by omega⟩

theorem nodup_intRange (N : ℕ) : (intRange N).Nodup :=
  List.Nodup.map (fun a b hab => by exact_mod_cast hab) (List.nodup_range N)

theorem sorted_intRange (N : ℕ) : List.Sorted (· ≤ ·) (intRange N) :=
  List.Pairwise.map _ (fun a b hab => by exact_mod_cast Nat.le_of_lt hab)
    (List.sorted_lt_range N)

theorem sortedIndices_eq_range (ds : List Delta) (N : ℕ)
    (hidx : ∀ i : Int, i ∈ collectIndices ds ↔ 0 ≤ i ∧ i < (N : Int)) :
    sortedIndices (finalToolMap ds) = intRange N := by
  have hnd : ((finalToolMap ds).map Prod.fst).Nodup := nodup_keys_finalToolMap ds
  have hmem : ∀ i : Int,
      i ∈ (finalToolMap ds).map Prod.fst ↔ i ∈ intRange N := by
    intro i
    rw [mem_keys_finalToolMap, hidx, mem_intRange]
  have hperm : List.Perm ((finalToolMap ds).map Prod.fst) (intRange N) :=
    (List.perm_ext_iff_of_nodup hnd (nodup_intRange N)).mpr hmem
  have hpermSort : List.Perm (sortedIndices (finalToolMap ds)) (intRange N) :=
    (List.perm_insertionSort _ _).trans hperm
  exact List.eq_of_perm_of_sorted hpermSort (List.sorted_insertionSort _ _)
    (sorted_intRange N)

/-- Helper: filtering `filterMap` through a `map` of casts and mapping the
block constructor over the extracted calls. -/
theorem assembled_blocks_shape (ds : List Delta) :
    (chatStreamAssemble ds).contentBlocks =
      (if streamThinking ds ≠ "" then [ContentBlock.thinking (streamThinking ds)] else [])
        ++ (if streamText ds ≠ "" then [ContentBlock.text (streamText ds)] else [])
        ++ ((sortedIndices (finalToolMap ds)).filterMap
              (alistLookup (finalToolMap ds))).map ContentBlock.toolUse := rfl

/-- C1: for every fixed set of stream deltas whose tool-call fragments carry
exactly the indices `0 .. N-1`, and for every arrival order of those deltas
(the statement quantifies over arbitrary delta lists, hence over every
permutation of any fixed delta multiset), the message assembled by
`ChatStream` has its content blocks in the order: one thinking block (if the
accumulated reasoning is non-empty), then one text block (if the accumulated
text is non-empty), then one tool-use block per stream index in ascending
index order. -/
theorem chatStream_block_ordering (ds : List Delta) (N : ℕ)
    (hidx : ∀ i : Int, i ∈ collectIndices ds ↔ 0 ≤ i ∧ i < (N : Int)) :
    (∀ k : ℕ, k < N → (callAt ds (k : Int)).isSome) ∧
    (chatStreamAssemble ds).contentBlocks =
      (if streamThinking ds ≠ "" then [ContentBlock.thinking (streamThinking ds)] else [])
        ++ (if streamText ds ≠ "" then [ContentBlock.text (streamText ds)] else [])
        ++ (List.range N).filterMap
             (fun k : ℕ => (callAt ds (k : Int)).map ContentBlock.toolUse) := by
  constructor
  · intro k hk
    rw [callAt, ← mem_keys_iff_lookup_isSome, mem_keys_finalToolMap, hidx]
    constructor
    · exact_mod_cast Nat.zero_le k
    · exact_mod_cast hk
  · rw [assembled_blocks_shape, sortedIndices_eq_range ds N hidx]
    unfold intRange
    rw [List.filterMap_map, List.map_filterMap]
    rfl

/-- C3: a tool-call fragment whose stream index is absent is ignored by the
accumulation step of `ChatStream`: the assembled message is the same with or
without it.  (In the embedding the `tc.Index == nil` guard makes the merge a
total function that never dereferences an absent index, so the accumulation
cannot crash.) -/
theorem chatStream_ignores_nil_index_fragment
    (ds₁ ds₂ : List Delta) (r c : String) (fs₁ fs₂ : List ToolCallFragment)
    (f : ToolCallFragment) (h : f.index = none) :
    chatStreamAssemble (ds₁ ++ ⟨r, c, fs₁ ++ f :: fs₂⟩ :: ds₂) =
      chatStreamAssemble (ds₁ ++ ⟨r, c, fs₁ ++ fs₂⟩ :: ds₂) := by
  have hmerge : ∀ m : ToolCallsMap, mergeToolCallFragment m f = m := by
    intro m
    simp [mergeToolCallFragment, h]
  have hdelta : ∀ s : AssemblerState,
      processDelta s ⟨r, c, fs₁ ++ f :: fs₂⟩ = processDelta s ⟨r, c, fs₁ ++ fs₂⟩ := by
    intro s
    simp only [processDelta, List.foldl_append, List.foldl_cons, hmerge]
  unfold chatStreamAssemble
  rw [List.foldl_append, List.foldl_append, List.foldl_cons, List.foldl_cons, hdelta]

theorem alistLookup_merge (m : ToolCallsMap) (f : ToolCallFragment) (i : Int) :
    alistLookup (mergeToolCallFragment m f) i =
      if f.index = some i then accumFragment (alistLookup m i) f
      else alistLookup m i := by
  cases hf : f.index with
  | none => simp [mergeToolCallFragment, hf]
  | some idx =>
    simp only [mergeToolCallFragment, hf, Option.some.injEq]
    by_cases hi : idx = i
    · subst hi
      cases hl : alistLookup m idx with
      | some e =>
        rw [alistLookup_update_self m idx _ (by rw [hl]; rfl)]
        simp [accumFragment, hl]
      | none =>
        rw [alistLookup_append]
        simp [alistLookup, hl, accumFragment]
    · cases hl : alistLookup m idx with
      | some e =>
        rw [alistLookup_update_ne m idx i _ hi]
        simp [hi]
      | none =>
        rw [alistLookup_append]
        simp only [if_neg hi]
        cases hli : alistLookup m i with
        | some w => simp
        | none => simp [alistLookup, hi]

theorem lookup_foldl_merge (fs : List ToolCallFragment) (m : ToolCallsMap) (i : Int) :
    alistLookup (fs.foldl mergeToolCallFragment m) i =
      (fs.filter (fun f => f.index = some i)).foldl accumFragment (alistLookup m i) := by
  induction fs generalizing m with
  | nil => rfl
  | cons f fs ih =>
    rw [List.foldl_cons, ih, alistLookup_merge]
    by_cases h : f.index = some i
    · simp [List.filter_cons, h]
    · simp [List.filter_cons, h]

theorem callAt_eq_accum (ds : List Delta) (i : Int) :
    callAt ds i = (fragmentsAt ds i).foldl accumFragment none := by
  have key : ∀ (ds : List Delta) (s : AssemblerState),
      alistLookup ((ds.foldl processDelta s).toolCallsMap) i =
        (((ds.map Delta.toolCalls).flatten.filter
            (fun f => f.index = some i)).foldl accumFragment
          (alistLookup s.toolCallsMap i)) := by
    intro ds
    induction ds with
    | nil => intro s; rfl
    | cons d ds ih =>
      intro s
      rw [List.foldl_cons, ih]
      simp only [processDelta, lookup_foldl_merge, List.map_cons, List.flatten_cons,
        List.filter_append, List.foldl_append]
  rw [callAt, finalToolMap, key, fragmentsAt]
  rfl

theorem foldl_append_strings (l : List String) (init : String) :
    l.foldl (fun a s => a ++ s) init = init ++ concatAll l := by
  induction l generalizing init with
  | nil => simp [concatAll]
  | cons s l ih =>
    rw [List.foldl_cons, ih]
    have h2 : concatAll (s :: l) = s ++ concatAll l := by
      show l.foldl (fun a b => a ++ b) ("" ++ s) = s ++ concatAll l
      rw [ih ("" ++ s)]
      simp
    rw [h2, String.append_assoc]

theorem concatAll_cons (s : String) (l : List String) :
    concatAll (s :: l) = s ++ concatAll l := by
  show l.foldl (fun a b => a ++ b) ("" ++ s) = s ++ concatAll l
  rw [foldl_append_strings]
  simp

theorem foldl_lastNonEmpty_cons (x : String) (l : List String) :
    lastNonEmpty (x :: l) = l.foldl (fun acc s => if s ≠ "" then s else acc) x := by
  rw [lastNonEmpty, List.foldl_cons]
  by_cases h : x = "" <;> simp [h]

theorem accum_some_closed (fs : List ToolCallFragment) (e : ToolCall) :
    fs.foldl accumFragment (some e) =
      some ⟨(fs.map ToolCallFragment.id).foldl (fun acc s => if s ≠ "" then s else acc) e.id,
            (fs.map ToolCallFragment.name).foldl (fun acc s => if s ≠ "" then s else acc) e.name,
            e.arguments ++ concatAll (fs.map ToolCallFragment.arguments)⟩ := by
  induction fs generalizing e with
  | nil => simp [concatAll]
  | cons f fs ih =>
    rw [List.foldl_cons]
    show fs.foldl accumFragment (some (updateExisting e f)) = _
    rw [ih]
    simp only [updateExisting, List.map_cons, List.foldl_cons, concatAll_cons,
      String.append_assoc]

theorem accum_none_closed (fs : List ToolCallFragment) (h : fs ≠ []) :
    fs.foldl accumFragment none =
      some ⟨lastNonEmpty (fs.map ToolCallFragment.id),
            lastNonEmpty (fs.map ToolCallFragment.name),
            concatAll (fs.map ToolCallFragment.arguments)⟩ := by
  cases fs with
  | nil => exact absurd rfl h
  | cons f fs =>
    rw [List.foldl_cons]
    show fs.foldl accumFragment (some ⟨f.id, f.name, f.arguments⟩) = _
    rw [accum_some_closed]
    simp only [List.map_cons, concatAll_cons, foldl_lastNonEmpty_cons]

/-- C9: the tool call assembled at a stream index is a function of exactly the
fragments tagged with that index, in arrival order: its argument string is
their concatenated argument substrings, and its id and name are the last
non-empty id/name any of them supplied (an empty id/name never overwrites a
non-empty one).  Fragments tagged with other indices do not affect it. -/
theorem chatStream_toolcall_accumulation (ds : List Delta) (idx : Int) :
    (fragmentsAt ds idx = [] → callAt ds idx = none) ∧
    (fragmentsAt ds idx ≠ [] →
      callAt ds idx =
        some ⟨lastNonEmpty ((fragmentsAt ds idx).map ToolCallFragment.id),
              lastNonEmpty ((fragmentsAt ds idx).map ToolCallFragment.name),
              concatAll ((fragmentsAt ds idx).map ToolCallFragment.arguments)⟩) := by
  constructor
  · intro h
    rw [callAt_eq_accum, h]
    rfl
  · intro h
    rw [callAt_eq_accum, accum_none_closed _ h]

theorem executeFrom_always_tools (chat : ChatFun) (reg : Registry)
    (h : ∀ msgs, ∃ m, chat msgs (registryDefinitions reg) = .ok m ∧ m.toolCalls ≠ []) :
    ∀ rem it msgs, executeFrom chat reg rem it msgs =
      (.error "max iterations (50) exceeded", rem) := by
  intro rem
  induction rem with
  | zero => intro it msgs; rfl
  | succ rem ih =>
    intro it msgs
    obtain ⟨m, hm, hts⟩ := h msgs
    simp only [executeFrom, hm, List.isEmpty_eq_true, hts, if_false, ih]

theorem executeFrom_ok (chat : ChatFun) (reg : Registry) :
    ∀ rem it msgs r n, executeFrom chat reg rem it msgs = (.ok r, n) →
      r.iterations = it + n - 1 ∧ 1 ≤ n ∧ n ≤ rem := by
  intro rem
  induction rem with
  | zero =>
    intro it msgs r n h
    simp [executeFrom, Prod.mk.injEq] at h
  | succ rem ih =>
    intro it msgs r n h
    simp only [executeFrom] at h
    cases hc : chat msgs (registryDefinitions reg) with
    | error e =>
      rw [hc] at h
      have h1 : (Except.error ("llm request failed: " ++ e) : Except String ExecuteResult)
          = Except.ok r := congrArg Prod.fst h
      exact Except.noConfusion h1
    | ok m =>
      rw [hc] at h
      have h' : (if m.toolCalls.isEmpty then
            ((Except.ok (⟨m.content, it⟩ : ExecuteResult) : Except String ExecuteResult), 1)
          else
            ((executeFrom chat reg rem (it + 1)
                (msgs ++ [m] ++
                  List.map (fun tc => toolResultMessage tc (executeTool reg tc)) m.toolCalls)).1,
             (executeFrom chat reg rem (it + 1)
                (msgs ++ [m] ++
                  List.map (fun tc => toolResultMessage tc (executeTool reg tc)) m.toolCalls)).2 + 1))
          = (Except.ok r, n) := h
      by_cases hts : m.toolCalls.isEmpty
      · rw [if_pos hts] at h'
        have h1 : Except.ok (⟨m.content, it⟩ : ExecuteResult) = Except.ok r :=
          congrArg Prod.fst h'
        have h2 : (1 : ℕ) = n := congrArg Prod.snd h'
        have h3 : (⟨m.content, it⟩ : ExecuteResult) = r := by injection h1
        have h4 : r.iterations = it := by rw [← h3]
        omega
      · rw [if_neg hts] at h'
        have h1 : (executeFrom chat reg rem (it + 1)
            (msgs ++ [m] ++
              List.map (fun tc => toolResultMessage tc (executeTool reg tc)) m.toolCalls)).1
            = Except.ok r := congrArg Prod.fst h'
        have h2 : (executeFrom chat reg rem (it + 1)
            (msgs ++ [m] ++
              List.map (fun tc => toolResultMessage tc (executeTool reg tc)) m.toolCalls)).2 + 1
            = n := congrArg Prod.snd h'
        obtain ⟨ha, hb, hcle⟩ := ih (it + 1)
          (msgs ++ [m] ++
            List.map (fun tc => toolResultMessage tc (executeTool reg tc)) m.toolCalls) r
          ((executeFrom chat reg rem (it + 1)
            (msgs ++ [m] ++
              List.map (fun tc => toolResultMessage tc (executeTool reg tc)) m.toolCalls)).2)
          (by rw [← h1])
        omega

/-- C2: a model that returns at least one tool call in every turn makes the
loop fail with the `max iterations (50) exceeded` error after exactly 50
model calls — not fewer and not more; and whenever `Execute` returns a final
answer, the reported iteration count equals the exact number of model calls
made (between 1 and 50), i.e. a turn with zero tool calls at iteration `k`
ends the run with `Iterations = k`. -/
theorem executor_iteration_ceiling (chat : ChatFun) (reg : Registry) (sys task : String) :
    ((∀ msgs, ∃ m, chat msgs (registryDefinitions reg) = .ok m ∧ m.toolCalls ≠ []) →
      executorExecute chat reg sys task = (.error "max iterations (50) exceeded", 50)) ∧
    (∀ r n, executorExecute chat reg sys task = (.ok r, n) →
      r.iterations = n ∧ 1 ≤ n ∧ n ≤ 50) := by
  constructor
  · intro h
    exact executeFrom_always_tools chat reg h 50 1 _
  · intro r n h
    obtain ⟨ha, hb, hcle⟩ := executeFrom_ok chat reg 50 1 _ r n h
    omega

/-- C4: dispatching a tool call whose name is absent from the registry
produces the observation string `Error: unknown tool '<name>'` (containing
the literal requested name), appends it as a tool-role message keyed by the
original call, and the loop proceeds to its next iteration instead of
terminating. -/
theorem executor_unknown_tool_recovery (chat : ChatFun) (reg : Registry)
    (rem it : Nat) (msgs : List Message) (m : Message) (tc : ToolCall)
    (hm : chat msgs (registryDefinitions reg) = .ok m)
    (hcalls : m.toolCalls = [tc])
    (hunknown : registryGet reg tc.name = none) :
    executeFrom chat reg (rem + 1) it msgs =
      ((executeFrom chat reg rem (it + 1)
          (msgs ++ [m] ++
            [toolResultMessage tc ("Error: unknown tool \x27" ++ tc.name ++ "\x27")])).1,
       (executeFrom chat reg rem (it + 1)
          (msgs ++ [m] ++
            [toolResultMessage tc ("Error: unknown tool \x27" ++ tc.name ++ "\x27")])).2 + 1) ∧
    (∃ pre post, "Error: unknown tool \x27" ++ tc.name ++ "\x27" = pre ++ tc.name ++ post) := by
  refine ⟨?_, "Error: unknown tool \x27", "\x27", rfl⟩
  simp only [executeFrom, hm, hcalls, List.isEmpty_cons, Bool.false_eq_true, if_false,
    List.map_cons, List.map_nil, executeTool, hunknown]

theorem mem_alistUpdate {κ α : Type} [DecidableEq κ]
    (m : List (κ × α)) (k : κ) (v : α) (p : κ × α) (h : p ∈ alistUpdate m k v) :
    p ∈ m ∨ p = (k, v) := by
  induction m with
  | nil => simp [alistUpdate] at h
  | cons q rest ih =>
    obtain ⟨k', w⟩ := q
    by_cases hk : k' = k
    · rw [alistUpdate, if_pos hk] at h
      rcases List.mem_cons.mp h with rfl | h'
      · exact Or.inr (by rw [hk])
      · exact Or.inl (List.mem_cons_of_mem _ h')
    · rw [alistUpdate, if_neg hk] at h
      rcases List.mem_cons.mp h with rfl | h'
      · exact Or.inl (List.mem_cons_self _ _)
      · rcases ih h' with h'' | h''
        · exact Or.inl (List.mem_cons_of_mem _ h'')
        · exact Or.inr h''

theorem alistLookup_of_mem_nodup {κ α : Type} [DecidableEq κ]
    (m : List (κ × α)) (p : κ × α) (hnd : (m.map Prod.fst).Nodup) (hp : p ∈ m) :
    alistLookup m p.1 = some p.2 := by
  induction m with
  | nil => simp at hp
  | cons q rest ih =>
    obtain ⟨k', w⟩ := q
    rcases List.mem_cons.mp hp with rfl | h'
    · simp [alistLookup]
    · have hk : k' ≠ p.1 := by
        intro hkk
        have : p.1 ∈ rest.map Prod.fst := List.mem_map_of_mem Prod.fst h'
        rw [List.map_cons] at hnd
        exact (List.nodup_cons.mp hnd).1 (hkk ▸ this)
      rw [alistLookup, if_neg hk]
      exact ih (List.nodup_cons.mp (List.map_cons _ _ _ ▸ hnd)).2 h'

/-- The registration invariant: from the empty registry, any sequence of
`Register` calls yields a registry whose keys are pairwise distinct and
where every entry is stored under its own tool's name. -/
theorem registry_reachable_invariant (ts : List ToolPort) :
    ∀ r : Registry, (r.map Prod.fst).Nodup → (∀ p ∈ r, p.1 = p.2.name) →
      (((ts.foldl registryRegister r).map Prod.fst).Nodup ∧
        ∀ p ∈ ts.foldl registryRegister r, p.1 = p.2.name) := by
  induction ts with
  | nil => exact fun r hnd hkey => ⟨hnd, hkey⟩
  | cons t ts ih =>
    intro r hnd hkey
    rw [List.foldl_cons]
    refine ih (registryRegister r t) ?_ ?_
    · rw [registryRegister]
      by_cases hs : (alistLookup r t.name).isSome
      · rw [if_pos hs, keys_alistUpdate]
        exact hnd
      · rw [if_neg hs, List.map_append]
        refine List.Nodup.append hnd (by simp) ?_
        intro a ha hb
        simp only [List.map_cons, List.map_nil, List.mem_cons, List.not_mem_nil,
          or_false] at hb
        subst hb
        rw [mem_keys_iff_lookup_isSome] at ha
        exact hs ha
    · intro p hp
      rw [registryRegister] at hp
      by_cases hs : (alistLookup r t.name).isSome
      · rw [if_pos hs] at hp
        rcases mem_alistUpdate r t.name t p hp with h' | rfl
        · exact hkey p h'
        · rfl
      · rw [if_neg hs] at hp
        rcases List.mem_append.mp hp with h' | h'
        · exact hkey p h'
        · simp only [List.mem_cons, List.not_mem_nil, or_false] at h'
          subst h'
          rfl

/-- C10: `Definitions()` and `Get` of the map-backed registry are coherent:
after any sequence of `Register` calls starting from an empty registry, every
definition returned by `Definitions()` names a tool that `Get` resolves, and
the resolved tool's name, description and parameter schema are exactly the
ones that produced the definition; moreover registering a second tool under
an existing name makes `Get` return the later tool (last write wins). -/
theorem registry_definitions_get_coherent (ts : List ToolPort) :
    (∀ d ∈ registryDefinitions (ts.foldl registryRegister []), ∃ t,
        registryGet (ts.foldl registryRegister []) d.name = some t ∧
        t.name = d.name ∧ t.description = d.description ∧ t.parameters = d.parameters) ∧
    (∀ (r : Registry) (t : ToolPort), registryGet (registryRegister r t) t.name = some t) := by
  constructor
  · intro d hd
    obtain ⟨hnd, hkey⟩ := registry_reachable_invariant ts [] (by simp) (by simp)
    obtain ⟨p, hp, hdp⟩ := List.mem_map.mp hd
    refine ⟨p.2, ?_, ?_, ?_, ?_⟩
    · rw [registryGet, ← hdp]
      have := alistLookup_of_mem_nodup _ p hnd hp
      rw [hkey p hp] at this
      exact this
    · rw [← hdp]
    · rw [← hdp]
    · rw [← hdp]
  · intro r t
    rw [registryGet, registryRegister]
    by_cases hs : (alistLookup r t.name).isSome
    · rw [if_pos hs]
      exact alistLookup_update_self r t.name t hs
    · rw [if_neg hs, alistLookup_append]
      cases hl : alistLookup r t.name with
      | some w => rw [hl] at hs; simp at hs
      | none => simp [alistLookup]

/-- C5 (code bug): the fail-open rule does not cover every undecodable judge
reply.  A reply that contains both braces but whose last `}` lies more than
one position before the first `{` — e.g. `"\x7da\x7b"` — makes the Go slice
expression `response[start : end+1]` panic (modelled as `none`) instead of
producing the default verdict; `Evaluate` crashes on it.  A brace-less reply
does take the fail-open path and yields the default verdict success=true,
confidence=0.5, no issues, empty feedback, no retry. -/
theorem evaluator_panics_instead_of_fail_open :
    parseEvaluationResponse (fun _ => none) "\x7da\x7b" = none ∧
    evaluate (fun _ => none)
      (fun _ _ => .ok { role := .assistant, content := "\x7da\x7b" })
      ⟨"task", "result", agentTypeExtraction⟩ = none ∧
    evaluate (fun _ => none)
      (fun _ _ => .ok { role := .assistant, content := "This is not JSON at all" })
      ⟨"task", "result", agentTypeExtraction⟩ =
      some (.ok { success := true, confidence := 0.5, issues := [], feedback := "",
                  shouldRetry := false }) := by
  refine ⟨rfl, rfl, rfl⟩

/-- Shape of one step of the retry loop: either the loop stops at the
current attempt (one task in the trace), or the verdict demanded a retry and
the trace continues with the rebuilt task. -/
theorem agentRetryLoop_trace_shape (runInner : String → Except String String)
    (evalF : String → Except String EvaluationResult) (originalTask : String)
    (left : Nat) (task : String) :
    (agentRetryLoop runInner evalF originalTask left task).2 = [task] ∨
    ∃ res ev left', left = left' + 1 ∧
      runInner task = .ok res ∧ evalF res = .ok ev ∧
      ev.success = false ∧ ev.shouldRetry = true ∧
      (agentRetryLoop runInner evalF originalTask left task).2 =
        task :: (agentRetryLoop runInner evalF originalTask left'
          (buildRetryTask originalTask ev.feedback ev.issues)).2 := by
  cases left with
  | zero =>
    left
    cases hr : runInner task with
    | error e => simp [agentRetryLoop, hr]
    | ok result =>
      cases he : evalF result with
      | error e => simp [agentRetryLoop, hr, he]
      | ok ev =>
        by_cases hs : ev.success <;> simp [agentRetryLoop, hr, he, hs]
  | succ left' =>
    cases hr : runInner task with
    | error e => exact Or.inl (by simp [agentRetryLoop, hr])
    | ok result =>
      cases he : evalF result with
      | error e => exact Or.inl (by simp [agentRetryLoop, hr, he])
      | ok ev =>
        by_cases hs : ev.success
        · exact Or.inl (by simp [agentRetryLoop, hr, he, hs])
        · by_cases hretry : ev.shouldRetry
          · refine Or.inr ⟨result, ev, left', rfl, rfl, he, by simpa using hs, hretry, ?_⟩
            simp [agentRetryLoop, hr, he, hs, hretry]
          · exact Or.inl (by simp [agentRetryLoop, hr, he, hs, hretry])

theorem agentRetryLoop_trace_spec (runInner : String → Except String String)
    (evalF : String → Except String EvaluationResult) (originalTask : String) :
    ∀ left task,
      (agentRetryLoop runInner evalF originalTask left task).2.head? = some task ∧
      (∀ i tcur tnext,
        (agentRetryLoop runInner evalF originalTask left task).2[i]? = some tcur →
        (agentRetryLoop runInner evalF originalTask left task).2[i + 1]? = some tnext →
        ∃ res ev, runInner tcur = .ok res ∧ evalF res = .ok ev ∧
          ev.success = false ∧ ev.shouldRetry = true ∧
          tnext = buildRetryTask originalTask ev.feedback ev.issues) := by
  intro left
  induction left with
  | zero =>
    intro task
    rcases agentRetryLoop_trace_shape runInner evalF originalTask 0 task with
      h | ⟨res, ev, left', hl, _⟩
    · refine ⟨by rw [h]; rfl, ?_⟩
      intro i tcur tnext h1 h2
      rw [h] at h2
      simp at h2
    · exact absurd hl (by omega)
  | succ left' ih =>
    intro task
    rcases agentRetryLoop_trace_shape runInner evalF originalTask (left' + 1) task with
      h | ⟨res, ev, l2, hl, hr, he, hs, hretry, htrace⟩
    · refine ⟨by rw [h]; rfl, ?_⟩
      intro i tcur tnext h1 h2
      rw [h] at h2
      simp at h2
    · have hl2 : l2 = left' := by omega
      subst hl2
      refine ⟨by rw [htrace]; rfl, ?_⟩
      intro i tcur tnext h1 h2
      rw [htrace] at h1 h2
      cases i with
      | zero =>
        have hcur : task = tcur := by simpa using h1
        subst hcur
        rw [List.getElem?_cons_succ] at h2
        have hhead := (ih (buildRetryTask originalTask ev.feedback ev.issues)).1
        rw [List.head?_eq_getElem?] at hhead
        rw [h2] at hhead
        have hnext : tnext = buildRetryTask originalTask ev.feedback ev.issues := by
          simpa using hhead
        exact ⟨res, ev, hr, he, hs, hretry, hnext⟩
      | succ j =>
        rw [List.getElem?_cons_succ] at h1 h2
        exact (ih (buildRetryTask originalTask ev.feedback ev.issues)).2 j tcur tnext h1 h2

/-- C6: across evaluator-recommended retries, the first attempt's task is the
original task, and every later attempt's task text is built from the
original task description verbatim plus the most recent verdict's feedback
text plus the numbered list (1., 2., ...) of that verdict's issues — it is a
function of the original task and the latest verdict only, so it never
carries feedback or issues from any attempt before the most recent one. -/
theorem retry_task_construction (runInner : String → Except String String)
    (evalF : String → Except String EvaluationResult) (task : String) :
    (agentExecuteEval runInner evalF task).2.head? = some task ∧
    (∀ i tcur tnext,
      (agentExecuteEval runInner evalF task).2[i]? = some tcur →
      (agentExecuteEval runInner evalF task).2[i + 1]? = some tnext →
      ∃ res ev, runInner tcur = .ok res ∧ evalF res = .ok ev ∧
        ev.success = false ∧ ev.shouldRetry = true ∧
        tnext = task ++ "\n\nPREVIOUS ATTEMPT FEEDBACK:\n" ++ ev.feedback
          ++ "\n\nIssues to fix:\n" ++ numberedIssues ev.issues) :=
  agentRetryLoop_trace_spec runInner evalF task Retry.maxRetries task

theorem extractionLoop_always_tools (chat : ChatFun) (reg : Registry)
    (toolDefs : List ToolDefinition)
    (h : ∀ msgs tdefs, ∃ m, chat msgs tdefs = .ok m ∧ m.toolCalls ≠ []) :
    ∀ rem msgs, extractionLoop chat reg toolDefs rem msgs =
      .error "max iterations (5) exceeded" := by
  intro rem
  induction rem with
  | zero => intro msgs; rfl
  | succ rem ih =>
    intro msgs
    obtain ⟨m, hm, hts⟩ := h msgs toolDefs
    simp only [extractionLoop, hm, List.isEmpty_eq_true, hts, if_false, ih]

theorem navigationLoop_summary (chat : ChatFun) (reg : Registry)
    (toolDefs : List ToolDefinition)
    (h : ∀ msgs tdefs, ∃ m, chat msgs tdefs = .ok m ∧ m.toolCalls ≠ []) :
    ∀ rem msgs, ∃ msgs' m,
      chat (msgs' ++ [{ role := .user, content := navigationSummaryPrompt }]) [] = .ok m ∧
      navigationLoop chat reg toolDefs rem msgs = .ok m.content := by
  intro rem
  induction rem with
  | zero =>
    intro msgs
    obtain ⟨m, hm, -⟩ := h (msgs ++ [{ role := .user, content := navigationSummaryPrompt }]) []
    exact ⟨msgs, m, hm, by simp only [navigationLoop, hm]⟩
  | succ rem ih =>
    intro msgs
    obtain ⟨m, hm, hts⟩ := h msgs toolDefs
    obtain ⟨msgs', m', hm', hloop⟩ := ih
      (msgs ++ [m] ++ m.toolCalls.map (fun tc => toolResultMessage tc (executeTool reg tc)))
    refine ⟨msgs', m', hm', ?_⟩
    simp only [navigationLoop, hm, List.isEmpty_eq_true, hts, if_false]
    exact hloop

/-- C7 (amended): when the model produces tool calls in every turn, the
evaluator-enabled extraction (and form) sub-agent exhausts its inner
iteration ceiling and returns the hard error `max iterations (5) exceeded`;
it is the navigation sub-agent (which has no evaluator) that instead
performs one forced final-report chat call with tools disabled and returns
that call's text. -/
theorem subagent_exhaustion_behavior (chat : ChatFun) (reg : Registry)
    (evalF : String → Except String EvaluationResult) (sys task : String)
    (h : ∀ msgs tdefs, ∃ m, chat msgs tdefs = .ok m ∧ m.toolCalls ≠ []) :
    (extractionExecute chat reg evalF sys task).1 = .error "max iterations (5) exceeded" ∧
    (∃ msgs m,
      chat (msgs ++ [{ role := .user, content := navigationSummaryPrompt }]) [] = .ok m ∧
      navigationExecute chat reg sys task = .ok m.content) := by
  constructor
  · have hrun := extractionLoop_always_tools chat reg
      (filterToolDefs Extraction.allowedTools reg) h Extraction.maxIterations
      [{ role := .system, content := sys }, { role := .user, content := task }]
    have hrun' : extractionExecuteWithIterations chat reg sys task =
        .error "max iterations (5) exceeded" := hrun
    show (agentRetryLoop _ evalF task Retry.maxRetries task).1 = _
    rw [Retry.maxRetries]
    rw [agentRetryLoop]
    rw [hrun']
  · exact navigationLoop_summary chat reg (filterToolDefs Navigation.allowedTools reg) h
      Navigation.maxIterations
      [{ role := .system, content := sys }, { role := .user, content := task }]

/-- C8 (amended): every observation is carried in a tool-role message keyed
by the original call's id and name; a successful tool result longer than
20000 is replaced by its first 20000 characters plus the truncation marker,
a result at or below the limit is appended unchanged — but an observation
produced from a failing execution is the untruncated `Error: <message>`
string (the truncation is applied only on the success path). -/
theorem executor_observation_truncation (reg : Registry) (tc : ToolCall) :
    ((toolResultMessage tc (executeTool reg tc)).toolCallID = tc.id ∧
     (toolResultMessage tc (executeTool reg tc)).name = tc.name ∧
     (toolResultMessage tc (executeTool reg tc)).role = .tool) ∧
    (∀ t, registryGet reg tc.name = some t →
      (∀ res, t.exec tc.arguments = .ok res →
        executeTool reg tc =
          if Executor.maxObservationLen < res.length then
            res.take Executor.maxObservationLen ++ "\n... (truncated)"
          else res) ∧
      (∀ e, t.exec tc.arguments = .error e →
        executeTool reg tc = "Error: " ++ e)) := by
  refine ⟨⟨rfl, rfl, rfl⟩, ?_⟩
  intro t ht
  constructor
  · intro res hres
    simp [executeTool, ht, hres]
  · intro e he
    simp [executeTool, ht, he]

/-- C8 counterexample: the truncation bound does not apply to observations
from failing tool executions — dispatching a call to a tool that fails with
a 30000-character message yields the observation `Error: <message>` of
length 30007, which exceeds the 20000-character bound (and even the bound
plus the 16-character truncation marker) and carries no marker. -/
theorem executor_observation_unbounded_on_error :
    executeTool [("bad_tool", failingTool)] ⟨"call_1", "bad_tool", ""⟩ =
      "Error: " ++ longErrMsg ∧
    Executor.maxObservationLen + 16 <
      ("Error: " ++ longErrMsg).length := by
  refine ⟨rfl, ?_⟩
  rw [String.length_append]
  have h2 : longErrMsg.length = 30000 := by
    show (List.replicate 30000 'a').length = 30000
    rw [List.length_replicate]
  rw [h2]
  norm_num [Executor.maxObservationLen]

/-- C7 counterexample (the claim as stated): with a model that always
returns a tool call, the evaluator-enabled extraction sub-agent does not
perform a forced final-report turn — its `Execute` returns the hard error
`max iterations (5) exceeded`. -/
theorem extraction_hard_error_on_exhaustion :
    (extractionExecute alwaysToolChat [] trivialVerdictEval "sys" "task").1 =
      .error "max iterations (5) exceeded" := by rfl

/-- C7 witness: the amended statement at a concrete always-tool-calling
model — extraction errors out, navigation returns the final-report text. -/
theorem subagent_exhaustion_behavior_witness :
    (extractionExecute alwaysToolChat [] trivialVerdictEval "s" "t").1 =
      .error "max iterations (5) exceeded" ∧
    (∃ msgs m,
      alwaysToolChat (msgs ++ [{ role := .user, content := navigationSummaryPrompt }]) []
        = .ok m ∧
      navigationExecute alwaysToolChat [] "s" "t" = .ok m.content) :=
  subagent_exhaustion_behavior alwaysToolChat [] trivialVerdictEval "s" "t"
    (fun _ _ => ⟨_, rfl, by simp⟩)

/-- C1 witness: the ordering theorem at a concrete out-of-index-order
stream. -/
theorem chatStream_block_ordering_witness :
    (∀ k : ℕ, k < 2 → (callAt dsW (k : Int)).isSome) ∧
    (chatStreamAssemble dsW).contentBlocks =
      (if streamThinking dsW ≠ "" then [ContentBlock.thinking (streamThinking dsW)] else [])
        ++ (if streamText dsW ≠ "" then [ContentBlock.text (streamText dsW)] else [])
        ++ (List.range 2).filterMap
             (fun k : ℕ => (callAt dsW (k : Int)).map ContentBlock.toolUse) :=
  chatStream_block_ordering dsW 2 (by
    intro i
    have h : collectIndices dsW = [1, 0] := rfl
    rw [h]
    simp only [List.mem_cons, List.not_mem_nil, or_false]
    omega)

/-- C3 witness: a nil-index fragment inserted into a concrete stream leaves
the assembled message unchanged. -/
theorem chatStream_ignores_nil_index_fragment_witness :
    chatStreamAssemble
        [⟨"r", "c", [⟨some 0, "a", "t0", "x"⟩, ⟨none, "zz", "zz", "zz"⟩]⟩] =
      chatStreamAssemble [⟨"r", "c", [⟨some 0, "a", "t0", "x"⟩]⟩] :=
  chatStream_ignores_nil_index_fragment [] [] "r" "c"
    [⟨some 0, "a", "t0", "x"⟩] [] ⟨none, "zz", "zz", "zz"⟩ rfl

/-- C9 witness: the accumulated call at index 2 concatenates `ab` and `cd`
and keeps the first non-empty id/name; an index nobody used is absent. -/
theorem chatStream_toolcall_accumulation_witness :
    callAt dsW9 2 = some ⟨"c2", "t2", "abcd"⟩ ∧ callAt dsW9 5 = none := by
  constructor
  · have h := (chatStream_toolcall_accumulation dsW9 2).2 (by decide)
    rw [h]
    rfl
  · exact (chatStream_toolcall_accumulation dsW9 5).1 (by decide)

theorem executor_iteration_ceiling_witness :
    executorExecute chatLoopW [] "s" "t" = (.error "max iterations (50) exceeded", 50) ∧
    ((⟨"hi", 1⟩ : ExecuteResult).iterations = 1 ∧ 1 ≤ 1 ∧ 1 ≤ 50) :=
  ⟨(executor_iteration_ceiling chatLoopW [] "s" "t").1 (fun _ => ⟨_, rfl, by simp⟩),
   (executor_iteration_ceiling chatDoneW [] "s" "t").2 ⟨"hi", 1⟩ 1 rfl⟩

/-- C4 witness: a call to a name absent from an empty registry at a
concrete loop state — the loop recurses into the next iteration with the
unknown-tool observation appended. -/
theorem executor_unknown_tool_recovery_witness :
    executeFrom chatW4 [] 1 1 [] =
      ((executeFrom chatW4 [] 0 2
          ([] ++ [mW4] ++
            [toolResultMessage ⟨"c1", "ghost_tool", "a"⟩
              ("Error: unknown tool \x27" ++ "ghost_tool" ++ "\x27")])).1,
       (executeFrom chatW4 [] 0 2
          ([] ++ [mW4] ++
            [toolResultMessage ⟨"c1", "ghost_tool", "a"⟩
              ("Error: unknown tool \x27" ++ "ghost_tool" ++ "\x27")])).2 + 1) ∧
    (∃ pre post, "Error: unknown tool \x27" ++ "ghost_tool" ++ "\x27" =
      pre ++ "ghost_tool" ++ post) :=
  executor_unknown_tool_recovery chatW4 [] 0 1 [] mW4 ⟨"c1", "ghost_tool", "a"⟩
    rfl rfl rfl

theorem retry_task_construction_witness :
    (agentExecuteEval runInnerW evalFW "orig").2.head? = some "orig" ∧
    (∃ res ev, runInnerW "orig" = .ok res ∧ evalFW res = .ok ev ∧
      ev.success = false ∧ ev.shouldRetry = true ∧
      "orig\n\nPREVIOUS ATTEMPT FEEDBACK:\nfb\n\nIssues to fix:\n1. i1\n2. i2\n" =
        "orig" ++ "\n\nPREVIOUS ATTEMPT FEEDBACK:\n" ++ ev.feedback
          ++ "\n\nIssues to fix:\n" ++ numberedIssues ev.issues) :=
  ⟨(retry_task_construction runInnerW evalFW "orig").1,
   (retry_task_construction runInnerW evalFW "orig").2 0 "orig"
     "orig\n\nPREVIOUS ATTEMPT FEEDBACK:\nfb\n\nIssues to fix:\n1. i1\n2. i2\n"
     (by rfl) (by rfl)⟩

theorem executor_observation_truncation_witness :
    executeTool [("echo_tool", okToolW)] ⟨"c1", "echo_tool", ""⟩ = "hi" ∧
    executeTool [("boom_tool", errToolW)] ⟨"c2", "boom_tool", ""⟩ = "Error: " ++ "boom" := by
  constructor
  · have h := ((executor_observation_truncation [("echo_tool", okToolW)]
      ⟨"c1", "echo_tool", ""⟩).2 okToolW rfl).1 "hi" rfl
    rw [h]
    rfl
  · exact ((executor_observation_truncation [("boom_tool", errToolW)]
      ⟨"c2", "boom_tool", ""⟩).2 errToolW rfl).2 "boom" rfl

/-- C10 witness: after registering two tools, the definition produced for
`tool_a` resolves through `Get` to a tool with matching
name/description/parameters; and re-registering under `tool_a` makes `Get`
return the later tool. -/
theorem registry_definitions_get_coherent_witness :
    (∃ t, registryGet ([toolA, toolB].foldl registryRegister [])
        (⟨"tool_a", "first", [("p", "1")]⟩ : ToolDefinition).name = some t ∧
      t.name = (⟨"tool_a", "first", [("p", "1")]⟩ : ToolDefinition).name ∧
      t.description = (⟨"tool_a", "first", [("p", "1")]⟩ : ToolDefinition).description ∧
      t.parameters = (⟨"tool_a", "first", [("p", "1")]⟩ : ToolDefinition).parameters) ∧
    registryGet (registryRegister [("tool_a", toolA)] toolA2) toolA2.name = some toolA2 :=
  ⟨(registry_definitions_get_coherent [toolA, toolB]).1
      ⟨"tool_a", "first", [("p", "1")]⟩ (by decide),
   (registry_definitions_get_coherent [toolA, toolB]).2 [("tool_a", toolA)] toolA2⟩

end BrowserAgent
